import Mathlib

/-!
Verification of the XBRL metric-extraction and trading-day-alignment core of
the Market_Research_Experiements repository (`src/EDA_EDGAR_XBRL.py`).

Modelling conventions:
* A Python `datetime.date` is represented by its proleptic-Gregorian ordinal
  (the value of `date.toordinal()`, a positive natural number; ordinal 1 is
  0001-01-01, a Monday).  `timedelta(days = n)` addition is ordinal addition
  and `date.weekday()` is `(ordinal + 6) % 7` (Monday = 0), exactly as in
  CPython.
* A Python `datetime.datetime` is a record of an ordinal together with an
  hour and a minute (the scripts never use seconds or time zones).
* A Python `dict` is an association list with the keys in insertion order;
  item assignment replaces the value in place when the key is present and
  appends otherwise, as CPython dictionaries do.
* Values stored in fact dictionaries are strings, integers, or datetimes
  (inductive `Val`).
* `extract_metrics` returns `Except Unit _`: `Except.error ()` models an
  exception escaping the function (the source catches only `ValueError`
  around date parsing, so a non-string `filed` value would raise an uncaught
  `TypeError`); `Except.ok rows` models a normal return.
-/

namespace EdgarXBRL

/-! ## Calendar arithmetic (CPython `datetime` semantics) -/

/-- Gregorian leap-year rule, as used by `datetime.date`. -/
def isLeapYear (y : Nat) : Bool :=
  y % 4 == 0 && (y % 100 != 0 || y % 400 == 0)

/-- Number of days of month `m` (1..12) of year `y`. -/
def daysInMonth (y m : Nat) : Nat :=
  if m = 2 then (if isLeapYear y then 29 else 28)
  else if m = 4 ∨ m = 6 ∨ m = 9 ∨ m = 11 then 30
  else 31

/-- Days in year `y` strictly before month `m`. -/
def daysBeforeMonth (y : Nat) : Nat → Nat
  | 0 => 0
  | 1 => 0
  | n + 1 => daysBeforeMonth y n + daysInMonth y n

/-- `date(y, m, d).toordinal()`: proleptic-Gregorian ordinal, 0001-01-01 = 1. -/
def toOrdinal (y m d : Nat) : Nat :=
  365 * (y - 1) + (y - 1) / 4 - (y - 1) / 100 + (y - 1) / 400
    + daysBeforeMonth y m + d

/-- `date.fromordinal(o).weekday()`: Monday = 0 .. Sunday = 6. -/
def weekday (o : Nat) : Nat := (o + 6) % 7

/-- A Python naive `datetime`: date ordinal plus hour and minute. -/
structure PyDateTime where
  ordinal : Nat
  hour : Nat
  minute : Nat
deriving DecidableEq

/-! ## `datetime.strptime(s, "%Y-%m-%d").date()`

CPython's `_strptime` compiles the format to the regular expression
`(\d\d\d\d)-(1[0-2]|0[1-9]|[1-9])-(3[01]|[12]\d|0[1-9]|[1-9])`, matches it at
the start of the string, raises `ValueError` when the match fails or leaves
unconsumed characters, and finally builds `datetime(year, month, day)`, which
raises `ValueError` unless `1 <= year` and the day exists in that month.
The alternations below mirror the regular expression's left-to-right
preference (backtracking can never rescue a failed longer alternative here,
because every longer alternative is followed by a non-digit literal or the
end of the pattern). -/

/-- Numeric value of a decimal digit character. -/
def digitVal (c : Char) : Nat := c.toNat - 48

/-- Month field: regex `1[0-2]|0[1-9]|[1-9]` on the remaining characters. -/
def parseMonthChars : List Char → Option (Nat × List Char)
  | '1' :: c :: rest =>
      if '0' ≤ c ∧ c ≤ '2' then some (10 + digitVal c, rest)
      else some (1, c :: rest)
  | '0' :: c :: rest =>
      if '1' ≤ c ∧ c ≤ '9' then some (digitVal c, rest) else none
  | c :: rest =>
      if '1' ≤ c ∧ c ≤ '9' then some (digitVal c, rest) else none
  | [] => none

/-- Day field: regex `3[0-1]|[1-2]\d|0[1-9]|[1-9]| [1-9]` (the last
alternative accepts a space-padded day) on the remaining characters. -/
def parseDayChars : List Char → Option (Nat × List Char)
  | [] => none
  | [c] => if '1' ≤ c ∧ c ≤ '9' then some (digitVal c, []) else none
  | c₁ :: c₂ :: rest =>
      if c₁ = '3' then
        if c₂ = '0' ∨ c₂ = '1' then some (30 + digitVal c₂, rest)
        else some (3, c₂ :: rest)
      else if (c₁ = '1' ∨ c₁ = '2') ∧ c₂.isDigit then
        some (10 * digitVal c₁ + digitVal c₂, rest)
      else if c₁ = '0' then
        if '1' ≤ c₂ ∧ c₂ ≤ '9' then some (digitVal c₂, rest) else none
      else if '1' ≤ c₁ ∧ c₁ ≤ '9' then some (digitVal c₁, c₂ :: rest)
      else if c₁ = ' ' then
        if '1' ≤ c₂ ∧ c₂ ≤ '9' then some (digitVal c₂, rest) else none
      else none

/-- `datetime.strptime(s, "%Y-%m-%d").date().toordinal()`, with `none` for the
`ValueError` outcomes (no regex match, unconverted trailing data, year 0, or a
day that does not exist in the month). -/
def strptime_Ymd (s : String) : Option Nat :=
  match s.data with
  | y₁ :: y₂ :: y₃ :: y₄ :: '-' :: rest =>
      if y₁.isDigit ∧ y₂.isDigit ∧ y₃.isDigit ∧ y₄.isDigit then
        let y := 1000 * digitVal y₁ + 100 * digitVal y₂ + 10 * digitVal y₃
                   + digitVal y₄
        match parseMonthChars rest with
        | some (m, '-' :: rest₂) =>
            match parseDayChars rest₂ with
            | some (d, []) =>
                if 1 ≤ y ∧ 1 ≤ d ∧ d ≤ daysInMonth y m then
                  some (toOrdinal y m d)
                else none
            | _ => none
        | _ => none
      else none
  | _ => none

/-! ## Dates: `next_trading_day` and `shift_to_market_open` -/

/-- The `while date.weekday() >= 5: date += timedelta(days=1)` loop body of
`next_trading_day`. -/
def skipWeekend (date : Nat) : Nat :=
  if weekday date ≥ 5 then skipWeekend (date + 1) else date
termination_by (if weekday date ≥ 5 then 7 - weekday date else 0)
decreasing_by
  simp only [weekday] at *
  split <;> omega

/-- Number of iterations the `while` loop of `next_trading_day` performs when
started at `date`. -/
def skipWeekendIters (date : Nat) : Nat :=
  if weekday date ≥ 5 then skipWeekendIters (date + 1) + 1 else 0
termination_by (if weekday date ≥ 5 then 7 - weekday date else 0)
decreasing_by
  simp only [weekday] at *
  split <;> omega

/-- `next_trading_day(date)`: advance one day, then skip weekend days. -/
def next_trading_day (date : Nat) : Nat :=
  skipWeekend (date + 1)

/-- `shift_to_market_open(filing_date)`: combine the date with 09:30 and, when
the weekday is Saturday (5) or Sunday (6), add `7 - weekday` days. -/
def shift_to_market_open (filing_date : Nat) : PyDateTime :=
  let market_open_datetime : PyDateTime :=
    { ordinal := filing_date, hour := 9, minute := 30 }
  if weekday market_open_datetime.ordinal ≥ 5 then
    { market_open_datetime with
        ordinal := market_open_datetime.ordinal
          + (7 - weekday market_open_datetime.ordinal) }
  else
    market_open_datetime

/-! ## Python dictionaries -/

/-- A value stored in a fact / row dictionary. -/
inductive Val where
  | str : String → Val
  | int : Int → Val
  | dt : PyDateTime → Val
deriving DecidableEq

/-- A Python dictionary: association list in insertion order. -/
abbrev Dict := List (String × Val)

/-- `d[k]` as an option (`none` models `KeyError`). -/
def dictGet (d : Dict) (k : String) : Option Val :=
  (d.find? (fun p => p.1 == k)).map (fun p => p.2)

/-- `k in d`. -/
def dictContains (d : Dict) (k : String) : Bool :=
  d.any (fun p => p.1 == k)

/-- `d[k] = v`: replace in place when the key is present, append otherwise. -/
def dictSet (d : Dict) (k : String) (v : Val) : Dict :=
  if dictContains d k then d.map (fun p => if p.1 == k then (k, v) else p)
  else d ++ [(k, v)]

/-- The nested XBRL structure: namespace → metric key → list of facts. -/
abbrev XBRLData := List (String × List (String × List Dict))

/-! ## Module-level configuration of `EDA_EDGAR_XBRL.py` -/

def print_gaap_keys : Bool := false
def print_metrics : Bool := false
def print_added_row : Bool := false
def print_namespace_data : Bool := false

/-- The module's `top_25_metrics` list, exactly as Python evaluates it: the
source has no comma between the string literals on lines 47 and 48, so Python
implicitly concatenates them into a single element. -/
def top_25_metrics : List String := [
  "us-gaap_RevenueFromContractWithCustomerExcludingAssessedTax_USD",
  "us-gaap_CostOfGoodsAndServicesSold_USD",
  "us-gaap_ResearchAndDevelopmentExpense_USD" ++ "us-gaap_NetIncomeLoss_USD",
  "us-gaap_EarningsPerShareBasic_USD/shares",
  "us-gaap_EarningsPerShareDiluted_USD/shares",
  "us-gaap_OperatingIncomeLoss_USD",
  "us-gaap_GrossProfit_USD",
  "us-gaap_Assets_USD",
  "us-gaap_AssetsCurrent_USD",
  "us-gaap_LiabilitiesCurrent_USD",
  "us-gaap_StockholdersEquity_USD",
  "us-gaap_CashCashEquivalentsRestrictedCashAndRestrictedCashEquivalents_USD",
  "us-gaap_CashAndCashEquivalentsAtCarryingValue_USD",
  "us-gaap_CashCashEquivalentsRestrictedCashAndRestrictedCashEquivalentsPeriodIncreaseDecreaseIncludingExchangeRateEffect_USD",
  "us-gaap_NetCashProvidedByUsedInOperatingActivities_USD",
  "us-gaap_NetCashProvidedByUsedInInvestingActivities_USD",
  "us-gaap_NetCashProvidedByUsedInFinancingActivities_USD",
  "us-gaap_InterestExpense_USD",
  "us-gaap_LongTermDebt_USD",
  "us-gaap_DebtInstrumentCarryingAmount_USD",
  "us-gaap_AllocatedShareBasedCompensationExpense_USD",
  "us-gaap_ShareBasedCompensation_USD",
  "us-gaap_IncomeTaxExpenseBenefit_USD",
  "us-gaap_ResearchAndDevelopmentExpense_USD",
  "us-gaap_SellingGeneralAndAdministrativeExpense_USD",
  "us-gaap_InventoryNet_USD"
]

/-! ## `extract_metrics` (value-level embedding) -/

/-- Body of the innermost loop of `extract_metrics` for one fact
(`namespace_data`): check `'filed' in namespace_data`, parse the date (a
failed parse is a caught `ValueError`: the fact is skipped), build the row as
a shallow copy of the fact plus `market_day`, `namespace` and `content`.
A present but non-string `filed` makes `strptime` raise `TypeError`, which the
`except ValueError` clause does not catch, so it escapes (`Except.error`). -/
def processFact (nmspace metric : String) (namespace_data : Dict) :
    Except Unit (List Dict) :=
  if dictContains namespace_data "filed" then
    match dictGet namespace_data "filed" with
    | some (Val.str s) =>
        match strptime_Ymd s with
        | some filing_date =>
            let market_day := shift_to_market_open filing_date
            let row := namespace_data
            let row := dictSet row "market_day" (Val.dt market_day)
            let row := dictSet row "namespace" (Val.str nmspace)
            let row := dictSet row "content" (Val.str metric)
            Except.ok [row]
        | none => Except.ok []
    | _ => Except.error ()
  else
    Except.ok []

/-- Run an exception-propagating loop body over a list, collecting the emitted
rows in order (models the `metrics_data.append` accumulation: an escaping
exception discards the collected rows). -/
def collectE {α β : Type} (f : α → Except Unit (List β)) :
    List α → Except Unit (List β)
  | [] => Except.ok []
  | x :: xs =>
      match f x with
      | Except.error e => Except.error e
      | Except.ok r =>
          match collectE f xs with
          | Except.error e => Except.error e
          | Except.ok rs => Except.ok (r ++ rs)

/-- Body of the namespace loop of `extract_metrics` for one metric: when
`metric in xbrl_data[namespace]`, iterate its facts; otherwise the source
appends a bare `{'content': metric}` diagnostic row only when the module flag
`print_metrics` is true. -/
def processNamespace (metric : String)
    (ns : String × List (String × List Dict)) : Except Unit (List Dict) :=
  match ns.2.find? (fun p => p.1 == metric) with
  | some entry => collectE (processFact ns.1 metric) entry.2
  | none =>
      Except.ok (if print_metrics then [[("content", Val.str metric)]] else [])

/-- `extract_metrics(xbrl_data, metrics_list)`. -/
def extract_metrics (xbrl_data : XBRLData) (metrics_list : List String) :
    Except Unit (List Dict) :=
  collectE (fun metric => collectE (processNamespace metric) xbrl_data)
    metrics_list

/-- `extract_metrics_from_EDGAR_XBRL(ticker)`, with the network fetch
`acquire_xbrl_data(ticker)` (external I/O) replaced by its result, passed as
the argument: the function is otherwise the pure composition with the module's
`top_25_metrics` list. -/
def extract_metrics_from_EDGAR_XBRL (xbrl_data : XBRLData) :
    Except Unit (List Dict) :=
  extract_metrics xbrl_data top_25_metrics

/-! ## Specification-side definitions

These definitions follow the wording of the spec (one ExtractedRow per
qualifying fact, in metric / namespace / fact order) and are compared with the
source-level `extract_metrics` above. -/

/-- Concatenation of a list of lists in order. -/
def concatAll {α : Type} : List (List α) → List α
  | [] => []
  | l :: ls => l ++ concatAll ls

/-- The ExtractedRow the spec prescribes for one fact, or `none` when the fact
has no string `filed` value parseable as `%Y-%m-%d`: a shallow copy of the
fact's fields together with `market_day`, `namespace` and `content`. -/
def factRowSpec (nmspace metric : String) (fact : Dict) : Option Dict :=
  match dictGet fact "filed" with
  | some (Val.str s) =>
      (strptime_Ymd s).map (fun filing_date =>
        dictSet (dictSet (dictSet fact "market_day"
            (Val.dt (shift_to_market_open filing_date)))
          "namespace" (Val.str nmspace)) "content" (Val.str metric))
  | _ => none

/-- The rows the spec prescribes for one `(metric, namespace)` pair: one row
per qualifying fact, in fact-list order; none when the metric key is absent
from the namespace. -/
def rowsForPair (metric : String)
    (ns : String × List (String × List Dict)) : List Dict :=
  match ns.2.find? (fun p => p.1 == metric) with
  | some entry => entry.2.filterMap (factRowSpec ns.1 metric)
  | none => []

/-- The full output the spec prescribes: metric-list order outermost,
namespace order next, fact order innermost. -/
def specRows (x : XBRLData) (ms : List String) : List Dict :=
  concatAll (ms.map (fun metric => concatAll (x.map (rowsForPair metric))))

/-- The `filed` value of the fact, when present, is a string (the input
contract of §6: a non-string `filed` would make `strptime` raise an uncaught
`TypeError`). -/
def factFiledOk (f : Dict) : Bool :=
  match dictGet f "filed" with
  | some (Val.int _) => false
  | some (Val.dt _) => false
  | _ => true

/-- Every fact of the XBRL structure satisfies `factFiledOk`. -/
def wellFiled (x : XBRLData) : Bool :=
  x.all (fun ns => ns.2.all (fun mp => mp.2.all factFiledOk))

/-- Number of output rows whose `content` field is the metric `m`. -/
def contentCount (out : List Dict) (m : String) : Nat :=
  out.countP (fun r => decide (dictGet r "content" = some (Val.str m)))

/-- Number of facts under metric key `m`, over all namespaces, that carry a
string `filed` value parseable as `%Y-%m-%d`. -/
def qualFacts (x : XBRLData) (m : String) : Nat :=
  (x.map (fun ns =>
    match ns.2.find? (fun p => p.1 == m) with
    | some entry => entry.2.countP (fun f => (factRowSpec ns.1 m f).isSome)
    | none => 0)).sum

/-! ## Concrete sample inputs (the examples of spec §8) -/

/-- `{"us-gaap": {"us-gaap_NetIncomeLoss_USD": [{"val": 100, "filed":
"2024-02-02", "form": "10-K"}]}}`. -/
def sampleXBRL : XBRLData :=
  [("us-gaap", [("us-gaap_NetIncomeLoss_USD",
    [[("val", Val.int 100), ("filed", Val.str "2024-02-02"),
      ("form", Val.str "10-K")]])])]

/-- One fact under the research-and-development metric key. -/
def sampleRD : XBRLData :=
  [("us-gaap", [("us-gaap_ResearchAndDevelopmentExpense_USD",
    [[("val", Val.int 7), ("filed", Val.str "2024-02-02")]])])]

/-- A fact with no `filed` field. -/
def factNoFiled : Dict := [("val", Val.int 100)]

/-- A fact whose `filed` string does not parse. -/
def factBadDate : Dict := [("filed", Val.str "not-a-date")]

/-! ## Heap-level embedding

Python dictionaries are mutable objects on a heap; `row = dict(namespace_data)`
copies, and `row['market_day'] = ...` mutates only the copy.  To settle the
no-mutation claim this second embedding makes the references explicit: a heap
is a list of dictionary cells, fact dictionaries are referenced by cell index,
and the row construction allocates a fresh cell and mutates it in place.  The
structure of `processFactH` / `collectH` / `processNamespaceH` /
`extract_metricsH` mirrors the value-level embedding above line by line. -/

/-- The heap: dictionary objects addressed by cell index. -/
structure Heap where
  cells : List Dict
deriving DecidableEq

/-- Dereference a cell (total; out-of-range reads, which cannot occur for
well-formed references, give the empty dictionary). -/
def Heap.get (h : Heap) (r : Nat) : Dict := h.cells.getD r []

/-- Allocate a fresh dictionary object; returns the new heap and the
reference. -/
def Heap.alloc (h : Heap) (d : Dict) : Heap × Nat :=
  ({ cells := h.cells ++ [d] }, h.cells.length)

/-- `obj[k] = v` on the object at reference `r`. -/
def Heap.set (h : Heap) (r : Nat) (k : String) (v : Val) : Heap :=
  { cells := h.cells.set r (dictSet (h.get r) k v) }

/-- XBRL structure whose facts are references to heap cells. -/
abbrev XBRLRefs := List (String × List (String × List Nat))

/-- Heap-level `processFact`: the row is a freshly allocated shallow copy of
the fact cell, then mutated in place three times; the fact cell itself is
never written. -/
def processFactH (nmspace metric : String) (r : Nat) (h : Heap) :
    Except Unit (List Nat) × Heap :=
  let namespace_data := h.get r
  if dictContains namespace_data "filed" then
    match dictGet namespace_data "filed" with
    | some (Val.str s) =>
        match strptime_Ymd s with
        | some filing_date =>
            let market_day := shift_to_market_open filing_date
            let a := h.alloc namespace_data
            let h₂ := a.1.set a.2 "market_day" (Val.dt market_day)
            let h₃ := h₂.set a.2 "namespace" (Val.str nmspace)
            let h₄ := h₃.set a.2 "content" (Val.str metric)
            (Except.ok [a.2], h₄)
        | none => (Except.ok [], h)
    | _ => (Except.error (), h)
  else (Except.ok [], h)

/-- Heap-threading loop: run the body over the list left to right, collecting
emitted row references. -/
def collectH {α β : Type} (f : α → Heap → Except Unit (List β) × Heap) :
    List α → Heap → Except Unit (List β) × Heap
  | [], h => (Except.ok [], h)
  | x :: xs, h =>
      match f x h with
      | (Except.error e, h₁) => (Except.error e, h₁)
      | (Except.ok r, h₁) =>
          match collectH f xs h₁ with
          | (Except.error e, h₂) => (Except.error e, h₂)
          | (Except.ok rs, h₂) => (Except.ok (r ++ rs), h₂)

/-- Heap-level `processNamespace` (the diagnostic row of the `else` branch is
also a fresh allocation). -/
def processNamespaceH (metric : String)
    (ns : String × List (String × List Nat)) (h : Heap) :
    Except Unit (List Nat) × Heap :=
  match ns.2.find? (fun p => p.1 == metric) with
  | some entry => collectH (processFactH ns.1 metric) entry.2 h
  | none =>
      if print_metrics then
        let a := h.alloc [("content", Val.str metric)]
        (Except.ok [a.2], a.1)
      else (Except.ok [], h)

/-- Heap-level `extract_metrics`. -/
def extract_metricsH (xbrl_data : XBRLRefs) (metrics_list : List String)
    (h : Heap) : Except Unit (List Nat) × Heap :=
  collectH (fun metric => collectH (processNamespaceH metric) xbrl_data)
    metrics_list h

/-- The XBRL value obtained by dereferencing every fact of one namespace. -/
def derefNs (h : Heap) (ns : String × List (String × List Nat)) :
    String × List (String × List Dict) :=
  (ns.1, ns.2.map (fun mp => (mp.1, mp.2.map (Heap.get h))))

/-- The XBRL value obtained by dereferencing every fact reference. -/
def derefX (h : Heap) (x : XBRLRefs) : XBRLData := x.map (derefNs h)

/-- Every fact reference of one namespace points below `n`. -/
def nsBounded (n : Nat) (ns : String × List (String × List Nat)) : Bool :=
  ns.2.all (fun mp => mp.2.all (fun r => decide (r < n)))

/-- Every fact reference of the structure points into the heap. -/
def xbrlBounded (x : XBRLRefs) (h : Heap) : Bool :=
  x.all (nsBounded h.cells.length)

/-- A concrete heap and reference structure for the sample input. -/
def sampleHeap : Heap :=
  { cells := [[("val", Val.int 100), ("filed", Val.str "2024-02-02"),
    ("form", Val.str "10-K")]] }

/-- Reference-level sample XBRL structure: the single fact is cell 0. -/
def sampleXBRLRefs : XBRLRefs :=
  [("us-gaap", [("us-gaap_NetIncomeLoss_USD", [0])])]

/-! ## Helper lemmas: weekday arithmetic -/

lemma skipWeekend_closed (o : Nat) :
    skipWeekend o = if (o + 6) % 7 = 5 then o + 2
      else if (o + 6) % 7 = 6 then o + 1 else o := by
  by_cases h5 : (o + 6) % 7 = 5
  · have h6 : (o + 1 + 6) % 7 = 6 := by omega
    have h0 : (o + 2 + 6) % 7 = 0 := by omega
    rw [skipWeekend, skipWeekend, skipWeekend]
    simp [weekday, h5, h6, h0]
  · by_cases h6 : (o + 6) % 7 = 6
    · have h0 : (o + 1 + 6) % 7 = 0 := by omega
      rw [skipWeekend, skipWeekend]
      simp [weekday, h5, h6, h0]
    · rw [skipWeekend]
      simp [weekday, h5, h6]
      omega

lemma skipWeekendIters_closed (o : Nat) :
    skipWeekendIters o = if (o + 6) % 7 = 5 then 2
      else if (o + 6) % 7 = 6 then 1 else 0 := by
  by_cases h5 : (o + 6) % 7 = 5
  · have h6 : (o + 1 + 6) % 7 = 6 := by omega
    have h0 : (o + 2 + 6) % 7 = 0 := by omega
    rw [skipWeekendIters, skipWeekendIters, skipWeekendIters]
    simp [weekday, h5, h6, h0]
  · by_cases h6 : (o + 6) % 7 = 6
    · have h0 : (o + 1 + 6) % 7 = 0 := by omega
      rw [skipWeekendIters, skipWeekendIters]
      simp [weekday, h5, h6, h0]
    · rw [skipWeekendIters]
      simp [weekday, h5, h6]
      omega

/-! ## Helper lemmas: dictionaries -/

lemma dictContains_eq_isSome (d : Dict) (k : String) :
    dictContains d k = (dictGet d k).isSome := by
  induction d with
  | nil => rfl
  | cons p t ih =>
      cases hp : (p.1 == k) with
      | true => simp [dictContains, dictGet, List.any_cons, List.find?, hp]
      | false =>
          simpa [dictContains, dictGet, List.any_cons, List.find?, hp]
            using ih

lemma dictGet_append_single (d : Dict) (k : String) (v : Val)
    (h : dictContains d k = false) :
    dictGet (d ++ [(k, v)]) k = some v := by
  induction d with
  | nil => simp [dictGet, List.find?]
  | cons p t ih =>
      simp only [dictContains, List.any_cons, Bool.or_eq_false_iff] at h
      simp only [List.cons_append, dictGet, List.find?, h.1]
      exact ih h.2

lemma dictGet_map_update (d : Dict) (k : String) (v : Val)
    (h : dictContains d k = true) :
    dictGet (d.map (fun p => if p.1 == k then (k, v) else p)) k
      = some v := by
  induction d with
  | nil => cases h
  | cons p t ih =>
      cases hp : (p.1 == k) with
      | true =>
          simp only [List.map_cons, if_pos hp, dictGet, List.find?,
            beq_self_eq_true, Option.map_some']
      | false =>
          simp only [dictContains, List.any_cons, hp, Bool.false_or] at h
          simp only [List.map_cons,
            if_neg (show ¬((p.1 == k) = true) by simp [hp])]
          simp only [dictGet, List.find?, hp]
          exact ih h

lemma dictGet_dictSet (d : Dict) (k : String) (v : Val) :
    dictGet (dictSet d k v) k = some v := by
  unfold dictSet
  cases hc : dictContains d k with
  | true =>
      rw [if_pos rfl]
      exact dictGet_map_update d k v hc
  | false =>
      rw [if_neg (by simp)]
      exact dictGet_append_single d k v hc

/-! ## Helper lemmas: list plumbing -/

lemma concatAll_append {α : Type} (l₁ l₂ : List (List α)) :
    concatAll (l₁ ++ l₂) = concatAll l₁ ++ concatAll l₂ := by
  induction l₁ with
  | nil => rfl
  | cons a t ih => simp [concatAll, ih, List.append_assoc]

lemma concatAll_toList_eq_filterMap {α β : Type} (g : α → Option β)
    (l : List α) :
    concatAll (l.map (fun a => (g a).toList)) = l.filterMap g := by
  induction l with
  | nil => rfl
  | cons a t ih =>
      cases ha : g a <;> simp [concatAll, List.filterMap_cons, ha, ih]

lemma length_filterMap_countP {α β : Type} (g : α → Option β) (l : List α) :
    (l.filterMap g).length = l.countP (fun a => (g a).isSome) := by
  induction l with
  | nil => rfl
  | cons a t ih =>
      cases ha : g a <;>
        simp [List.filterMap_cons, ha, List.countP_cons, ih]

lemma getD_append_lt {α : Type} (l₁ l₂ : List α) (n : Nat) (d : α)
    (h : n < l₁.length) : (l₁ ++ l₂).getD n d = l₁.getD n d := by
  induction l₁ generalizing n with
  | nil => cases h
  | cons a t ih =>
      cases n with
      | zero => rfl
      | succ k => exact ih k (by simpa using h)

lemma getD_append_len {α : Type} (l : List α) (a : α) (d : α) :
    (l ++ [a]).getD l.length d = a := by
  induction l with
  | nil => rfl
  | cons b t ih => simp [ih]

lemma set_append_len {α : Type} (l : List α) (a b : α) :
    (l ++ [a]).set l.length b = l ++ [b] := by
  induction l with
  | nil => rfl
  | cons c t ih => simp [List.set, ih]

lemma map_congr_mem {α β : Type} (f g : α → β) (l : List α)
    (h : ∀ a ∈ l, f a = g a) : l.map f = l.map g := by
  induction l with
  | nil => rfl
  | cons a t ih =>
      simp only [List.map_cons, h a (List.mem_cons_self a t)]
      rw [ih (fun a ha => h a (List.mem_cons_of_mem _ ha))]

/-! ## Helper lemmas: the extraction correspondence -/

lemma processFact_eq_spec (n m : String) (f : Dict)
    (hf : factFiledOk f = true) :
    processFact n m f = Except.ok (factRowSpec n m f).toList := by
  unfold processFact factRowSpec
  rw [dictContains_eq_isSome]
  cases hg : dictGet f "filed" with
  | none => simp
  | some v =>
      cases v with
      | str s =>
          simp only [Option.isSome_some, if_true]
          cases hp : strptime_Ymd s <;> simp
      | int i => simp [factFiledOk, hg] at hf
      | dt t => simp [factFiledOk, hg] at hf

lemma collectE_congr_ok {α β : Type} (f : α → Except Unit (List β))
    (g : α → List β) (l : List α) (h : ∀ a ∈ l, f a = Except.ok (g a)) :
    collectE f l = Except.ok (concatAll (l.map g)) := by
  induction l with
  | nil => rfl
  | cons x xs ih =>
      simp only [collectE, h x (List.mem_cons_self x xs), List.map_cons,
        concatAll]
      rw [ih (fun a ha => h a (List.mem_cons_of_mem x ha))]

lemma collectE_processFact (n m : String) (fs : List Dict)
    (hf : fs.all factFiledOk = true) :
    collectE (processFact n m) fs =
      Except.ok (fs.filterMap (factRowSpec n m)) := by
  rw [List.all_eq_true] at hf
  rw [collectE_congr_ok (processFact n m)
    (fun f => (factRowSpec n m f).toList) fs
    (fun f hfm => processFact_eq_spec n m f (hf f hfm))]
  rw [concatAll_toList_eq_filterMap]

lemma processNamespace_eq_rowsForPair (m : String)
    (ns : String × List (String × List Dict))
    (h : ns.2.all (fun mp => mp.2.all factFiledOk) = true) :
    processNamespace m ns = Except.ok (rowsForPair m ns) := by
  unfold processNamespace rowsForPair
  cases hf : ns.2.find? (fun p => p.1 == m) with
  | none => simp [print_metrics]
  | some entry =>
      rw [List.all_eq_true] at h
      exact collectE_processFact _ _ _
        (h entry (List.mem_of_find?_eq_some hf))

lemma extract_metrics_eq_specRows (x : XBRLData) (ms : List String)
    (hx : wellFiled x = true) :
    extract_metrics x ms = Except.ok (specRows x ms) := by
  unfold extract_metrics specRows
  apply collectE_congr_ok
  intro m _
  apply collectE_congr_ok
  intro ns hns
  apply processNamespace_eq_rowsForPair
  unfold wellFiled at hx
  rw [List.all_eq_true] at hx
  exact hx ns hns

/-! ## Helper lemmas: row contents and counting -/

lemma factRowSpec_content (n m : String) (f r : Dict)
    (h : factRowSpec n m f = some r) :
    dictGet r "content" = some (Val.str m) := by
  unfold factRowSpec at h
  revert h
  cases hg : dictGet f "filed" with
  | none => intro h; cases h
  | some v =>
      cases v with
      | str s =>
          intro h
          obtain ⟨o, ho, hr⟩ := Option.map_eq_some'.mp h
          rw [← hr]
          exact dictGet_dictSet _ _ _
      | int i => intro h; cases h
      | dt t' => intro h; cases h

lemma contentCount_append (l₁ l₂ : List Dict) (m : String) :
    contentCount (l₁ ++ l₂) m = contentCount l₁ m + contentCount l₂ m :=
  List.countP_append _ _ _

lemma contentCount_rowsForPair (m' m : String)
    (ns : String × List (String × List Dict)) :
    contentCount (rowsForPair m' ns) m =
      if m' = m then (rowsForPair m' ns).length else 0 := by
  have hall : ∀ r ∈ rowsForPair m' ns,
      dictGet r "content" = some (Val.str m') := by
    intro r hr
    unfold rowsForPair at hr
    cases hf : ns.2.find? (fun p => p.1 == m') with
    | none => rw [hf] at hr; cases hr
    | some entry =>
        rw [hf] at hr
        obtain ⟨f, hfm, hrf⟩ := List.mem_filterMap.mp hr
        exact factRowSpec_content _ _ _ _ hrf
  by_cases h : m' = m
  · subst h
    rw [if_pos rfl]
    unfold contentCount
    rw [List.countP_eq_length.mpr]
    intro r hr
    simp [hall r hr]
  · rw [if_neg h]
    unfold contentCount
    rw [List.countP_eq_zero.mpr]
    intro r hr
    simp [hall r hr, h]

lemma rowsForPair_length (m : String)
    (ns : String × List (String × List Dict)) :
    (rowsForPair m ns).length =
      (match ns.2.find? (fun p => p.1 == m) with
       | some entry =>
           entry.2.countP (fun f => (factRowSpec ns.1 m f).isSome)
       | none => 0) := by
  unfold rowsForPair
  cases hf : ns.2.find? (fun p => p.1 == m) <;>
    simp [length_filterMap_countP]

lemma contentCount_block (x : XBRLData) (m' m : String) :
    contentCount (concatAll (x.map (rowsForPair m'))) m =
      if m' = m then qualFacts x m' else 0 := by
  induction x with
  | nil => simp [contentCount, qualFacts, concatAll]
  | cons ns t ih =>
      show contentCount (rowsForPair m' ns ++
        concatAll (t.map (rowsForPair m'))) m = _
      rw [contentCount_append, contentCount_rowsForPair, ih,
        rowsForPair_length]
      by_cases h : m' = m
      · subst h
        rw [if_pos rfl, if_pos rfl, if_pos rfl]
        simp only [qualFacts, List.map_cons, List.sum_cons,
          Nat.add_right_cancel_iff]
      · simp [h]

lemma contentCount_specRows (x : XBRLData) (ms : List String) (m : String) :
    contentCount (specRows x ms) m = ms.count m * qualFacts x m := by
  induction ms with
  | nil => simp [specRows, concatAll, contentCount]
  | cons m' t ih =>
      show contentCount (concatAll (x.map (rowsForPair m')) ++
        specRows x t) m = _
      rw [contentCount_append, contentCount_block, ih, List.count_cons]
      by_cases h : m' = m
      · subst h
        simp [Nat.succ_mul, Nat.add_comm]
      · simp [h, Ne.symm h]

/-! ## Helper lemmas: the heap-level correspondence -/

lemma collectE_congr {α β : Type} (f g : α → Except Unit (List β))
    (l : List α) (h : ∀ a ∈ l, f a = g a) : collectE f l = collectE g l := by
  induction l with
  | nil => rfl
  | cons a t ih =>
      simp only [collectE, h a (List.mem_cons_self a t)]
      rw [ih (fun a ha => h a (List.mem_cons_of_mem _ ha))]

lemma collectE_map {α β γ : Type} (f : β → Except Unit (List γ))
    (g : α → β) (l : List α) :
    collectE f (l.map g) = collectE (fun a => f (g a)) l := by
  induction l with
  | nil => rfl
  | cons a t ih => simp only [List.map_cons, collectE, ih]

lemma heap_get_append (h : Heap) (t : List Dict) (q : Nat)
    (hq : q < h.cells.length) :
    Heap.get { cells := h.cells ++ t } q = h.get q :=
  getD_append_lt h.cells t q [] hq

lemma collectH_spec {α : Type}
    (hf : α → Heap → Except Unit (List Nat) × Heap)
    (pf : Heap → α → Except Unit (List Dict))
    (B : α → Nat → Prop)
    (Hmono : ∀ a n n', n ≤ n' → B a n → B a n')
    (Hview : ∀ (a : α) (h h' : Heap) (t : List Dict),
      h'.cells = h.cells ++ t → B a h.cells.length → pf h' a = pf h a)
    (Hstep : ∀ (a : α) (h : Heap), B a h.cells.length →
      ∃ t, (hf a h).2.cells = h.cells ++ t ∧
        ((∃ e, pf h a = Except.error e ∧ (hf a h).1 = Except.error e) ∨
         (∃ rs refs, pf h a = Except.ok rs ∧ (hf a h).1 = Except.ok refs ∧
           (∀ q ∈ refs, q < (hf a h).2.cells.length) ∧
           refs.map ((hf a h).2.get) = rs)))
    (l : List α) (h : Heap) (hl : ∀ a ∈ l, B a h.cells.length) :
    ∃ t, (collectH hf l h).2.cells = h.cells ++ t ∧
      ((∃ e, collectE (pf h) l = Except.error e ∧
        (collectH hf l h).1 = Except.error e) ∨
       (∃ rs refs, collectE (pf h) l = Except.ok rs ∧
         (collectH hf l h).1 = Except.ok refs ∧
         (∀ q ∈ refs, q < (collectH hf l h).2.cells.length) ∧
         refs.map ((collectH hf l h).2.get) = rs)) := by
  induction l generalizing h with
  | nil =>
      refine ⟨[], by simp [collectH], Or.inr ⟨[], [], rfl, rfl, by simp, rfl⟩⟩
  | cons a l ih =>
      obtain ⟨t₁, ht₁, hstep⟩ := Hstep a h (hl a (List.mem_cons_self a l))
      rcases hfa : hf a h with ⟨r₁, h₁⟩
      rw [hfa] at ht₁ hstep
      simp only at ht₁ hstep
      rcases hstep with ⟨e, hpe, hhe⟩ | ⟨rs, refs, hprs, hhrefs, hqb, hmap⟩
      · -- the step raises: the whole loop raises
        subst hhe
        refine ⟨t₁, ?_, Or.inl ⟨e, ?_, ?_⟩⟩
        · simp only [collectH, hfa, ht₁]
        · simp only [collectE, hpe]
        · simp only [collectH, hfa]
      · subst hhrefs
        have hl₁ : ∀ a' ∈ l, B a' h₁.cells.length := by
          intro a' ha'
          refine Hmono a' h.cells.length h₁.cells.length ?_
            (hl a' (List.mem_cons_of_mem _ ha'))
          rw [ht₁]
          simp
        obtain ⟨t₂, ht₂, hrest⟩ := ih h₁ hl₁
        have hpure : collectE (pf h₁) l = collectE (pf h) l :=
          collectE_congr _ _ l (fun a' ha' =>
            Hview a' h h₁ t₁ ht₁ (hl a' (List.mem_cons_of_mem _ ha')))
        rw [hpure] at hrest
        rcases hcl : collectH hf l h₁ with ⟨r₂, h₂⟩
        rw [hcl] at ht₂ hrest
        simp only at ht₂ hrest
        rcases hrest with ⟨e, hpe, hhe⟩ | ⟨rs₂, refs₂, hprs₂, hhrefs₂, hqb₂, hmap₂⟩
        · subst hhe
          refine ⟨t₁ ++ t₂, ?_, Or.inl ⟨e, ?_, ?_⟩⟩
          · simp only [collectH, hfa, hcl, ht₂, ht₁, List.append_assoc]
          · simp only [collectE, hprs, hpe]
          · simp only [collectH, hfa, hcl]
        · subst hhrefs₂
          have hlen₁₂ : h₁.cells.length ≤ h₂.cells.length := by
            rw [ht₂]
            simp
          refine ⟨t₁ ++ t₂, ?_, Or.inr ⟨rs ++ rs₂, refs ++ refs₂, ?_, ?_, ?_, ?_⟩⟩
          · simp only [collectH, hfa, hcl, ht₂, ht₁, List.append_assoc]
          · simp only [collectE, hprs, hprs₂]
          · simp only [collectH, hfa, hcl]
          · intro q hq
            simp only [collectH, hfa, hcl]
            rcases List.mem_append.mp hq with hq | hq
            · exact lt_of_lt_of_le (hqb q hq) hlen₁₂
            · exact hqb₂ q hq
          · simp only [collectH, hfa, hcl, List.map_append]
            have hrefs : refs.map h₂.get = refs.map h₁.get := by
              refine map_congr_mem _ _ refs (fun q hq => ?_)
              have hq₁ : q < h₁.cells.length := hqb q hq
              have : h₂ = { cells := h₁.cells ++ t₂ } := by
                cases h₂
                simp only at ht₂
                rw [ht₂]
              rw [this]
              exact heap_get_append h₁ t₂ q hq₁
            rw [hrefs]
            rw [hmap, hmap₂]

lemma heap_set_concat (h : Heap) (d : Dict) (k : String) (v : Val) :
    (Heap.mk (h.cells ++ [d])).set h.cells.length k v
      = Heap.mk (h.cells ++ [dictSet d k v]) := by
  simp [Heap.set, Heap.get, getD_append_len, set_append_len]

lemma processFactH_spec (n m : String) (r : Nat) (h : Heap) :
    ∃ t, (processFactH n m r h).2.cells = h.cells ++ t ∧
      ((∃ e, processFact n m (h.get r) = Except.error e ∧
        (processFactH n m r h).1 = Except.error e) ∨
       (∃ rs refs, processFact n m (h.get r) = Except.ok rs ∧
         (processFactH n m r h).1 = Except.ok refs ∧
         (∀ q ∈ refs, q < (processFactH n m r h).2.cells.length) ∧
         refs.map ((processFactH n m r h).2.get) = rs)) := by
  cases hcb : dictContains (h.get r) "filed" with
  | false =>
      have hH : processFactH n m r h = (Except.ok [], h) := by
        unfold processFactH
        simp [hcb]
      have hP : processFact n m (h.get r) = Except.ok [] := by
        unfold processFact
        simp [hcb]
      rw [hH, hP]
      exact ⟨[], by simp, Or.inr ⟨[], [], rfl, rfl, by simp, rfl⟩⟩
  | true =>
      cases hg : dictGet (h.get r) "filed" with
      | none =>
          have hH : processFactH n m r h = (Except.error (), h) := by
            unfold processFactH
            simp [hcb, hg]
          have hP : processFact n m (h.get r) = Except.error () := by
            unfold processFact
            simp [hcb, hg]
          rw [hH, hP]
          exact ⟨[], by simp, Or.inl ⟨(), rfl, rfl⟩⟩
      | some v =>
          cases v with
          | str s =>
              cases hp : strptime_Ymd s with
              | none =>
                  have hH : processFactH n m r h = (Except.ok [], h) := by
                    unfold processFactH
                    simp [hcb, hg, hp]
                  have hP : processFact n m (h.get r) = Except.ok [] := by
                    unfold processFact
                    simp [hcb, hg, hp]
                  rw [hH, hP]
                  exact ⟨[], by simp, Or.inr ⟨[], [], rfl, rfl, by simp, rfl⟩⟩
              | some o =>
                  have hH : processFactH n m r h = (Except.ok [h.cells.length],
                      { cells := h.cells ++ [dictSet (dictSet (dictSet
                        (h.get r) "market_day"
                        (Val.dt (shift_to_market_open o))) "namespace"
                        (Val.str n)) "content" (Val.str m)] }) := by
                    unfold processFactH
                    simp [hcb, hg, hp, Heap.alloc, heap_set_concat]
                  have hP : processFact n m (h.get r) =
                      Except.ok [dictSet (dictSet (dictSet (h.get r)
                        "market_day" (Val.dt (shift_to_market_open o)))
                        "namespace" (Val.str n)) "content" (Val.str m)] := by
                    unfold processFact
                    simp [hcb, hg, hp]
                  rw [hH, hP]
                  refine ⟨_, rfl, Or.inr ⟨_, [h.cells.length], rfl, rfl,
                    ?_, ?_⟩⟩
                  · intro q hq
                    simp only [List.mem_singleton] at hq
                    subst hq
                    simp
                  · simp [Heap.get, getD_append_len]
          | int i =>
              have hH : processFactH n m r h = (Except.error (), h) := by
                unfold processFactH
                simp [hcb, hg]
              have hP : processFact n m (h.get r) = Except.error () := by
                unfold processFact
                simp [hcb, hg]
              rw [hH, hP]
              exact ⟨[], by simp, Or.inl ⟨(), rfl, rfl⟩⟩
          | dt t' =>
              have hH : processFactH n m r h = (Except.error (), h) := by
                unfold processFactH
                simp [hcb, hg]
              have hP : processFact n m (h.get r) = Except.error () := by
                unfold processFact
                simp [hcb, hg]
              rw [hH, hP]
              exact ⟨[], by simp, Or.inl ⟨(), rfl, rfl⟩⟩

lemma processNamespaceH_spec (m : String)
    (ns : String × List (String × List Nat)) (h : Heap)
    (hb : nsBounded h.cells.length ns = true) :
    ∃ t, (processNamespaceH m ns h).2.cells = h.cells ++ t ∧
      ((∃ e, processNamespace m (derefNs h ns) = Except.error e ∧
        (processNamespaceH m ns h).1 = Except.error e) ∨
       (∃ rs refs, processNamespace m (derefNs h ns) = Except.ok rs ∧
         (processNamespaceH m ns h).1 = Except.ok refs ∧
         (∀ q ∈ refs, q < (processNamespaceH m ns h).2.cells.length) ∧
         refs.map ((processNamespaceH m ns h).2.get) = rs)) := by
  have hfind : (derefNs h ns).2.find? (fun p => p.1 == m) =
      (ns.2.find? (fun p => p.1 == m)).map
        (fun mp => (mp.1, mp.2.map h.get)) := by
    unfold derefNs
    rw [List.find?_map]
    rfl
  cases hf : ns.2.find? (fun p => p.1 == m) with
  | none =>
      have hH : processNamespaceH m ns h = (Except.ok [], h) := by
        unfold processNamespaceH
        rw [hf]
        simp [print_metrics]
      have hP : processNamespace m (derefNs h ns) = Except.ok [] := by
        unfold processNamespace
        rw [hfind, hf]
        simp [print_metrics]
      rw [hH, hP]
      exact ⟨[], by simp, Or.inr ⟨[], [], rfl, rfl, by simp, rfl⟩⟩
  | some entry =>
      have hH : processNamespaceH m ns h =
          collectH (processFactH ns.1 m) entry.2 h := by
        unfold processNamespaceH
        rw [hf]
      have hP : processNamespace m (derefNs h ns) =
          collectE (fun rr => processFact ns.1 m (h.get rr)) entry.2 := by
        unfold processNamespace
        rw [hfind, hf]
        simp only [Option.map_some']
        rw [collectE_map]
        rfl
      rw [hH, hP]
      have hbents : ∀ rr ∈ entry.2, rr < h.cells.length := by
        unfold nsBounded at hb
        rw [List.all_eq_true] at hb
        have hmem := List.mem_of_find?_eq_some hf
        have := hb entry hmem
        rw [List.all_eq_true] at this
        intro rr hrr
        simpa using this rr hrr
      exact collectH_spec (processFactH ns.1 m)
        (fun hh rr => processFact ns.1 m (hh.get rr))
        (fun rr nn => rr < nn)
        (fun a n n' hle hlt => lt_of_lt_of_le hlt hle)
        (fun a hh hh' t ht hba => by
          have hget : hh'.get a = hh.get a := by
            have hh'eq : hh' = { cells := hh.cells ++ t } := by
              cases hh'
              simp only at ht
              rw [ht]
            rw [hh'eq]
            exact heap_get_append hh t a hba
          show processFact ns.1 m (hh'.get a) = processFact ns.1 m (hh.get a)
          rw [hget])
        (fun a hh _ => processFactH_spec ns.1 m a hh)
        entry.2 h hbents

lemma nsBounded_mono (ns : String × List (String × List Nat)) (n n' : Nat)
    (hle : n ≤ n') (hb : nsBounded n ns = true) : nsBounded n' ns = true := by
  unfold nsBounded at *
  rw [List.all_eq_true] at *
  intro mp hmp
  rw [List.all_eq_true]
  have hbmp := hb mp hmp
  rw [List.all_eq_true] at hbmp
  intro r hr
  have h := hbmp r hr
  simp only [decide_eq_true_eq] at h ⊢
  omega

lemma derefNs_stable (hh hh' : Heap) (t : List Dict)
    (ht : hh'.cells = hh.cells ++ t)
    (ns : String × List (String × List Nat))
    (hb : nsBounded hh.cells.length ns = true) :
    derefNs hh' ns = derefNs hh ns := by
  unfold derefNs nsBounded at *
  rw [List.all_eq_true] at hb
  have hh'eq : hh' = { cells := hh.cells ++ t } := by
    cases hh'
    simp only at ht
    rw [ht]
  congr 1
  apply map_congr_mem
  intro mp hmp
  have hbmp := hb mp hmp
  rw [List.all_eq_true] at hbmp
  congr 1
  apply map_congr_mem
  intro r hr
  have hrb : r < hh.cells.length := by
    simpa using hbmp r hr
  rw [hh'eq]
  exact heap_get_append hh t r hrb

lemma derefX_stable (hh hh' : Heap) (t : List Dict)
    (ht : hh'.cells = hh.cells ++ t) (x : XBRLRefs)
    (hb : x.all (nsBounded hh.cells.length) = true) :
    derefX hh' x = derefX hh x := by
  unfold derefX
  rw [List.all_eq_true] at hb
  apply map_congr_mem
  intro ns hns
  exact derefNs_stable hh hh' t ht ns (hb ns hns)

lemma collectH_ns_level (metric : String) (x : XBRLRefs) (hh : Heap)
    (hb : x.all (nsBounded hh.cells.length) = true) :
    ∃ t, (collectH (processNamespaceH metric) x hh).2.cells
        = hh.cells ++ t ∧
      ((∃ e, collectE (processNamespace metric) (derefX hh x)
          = Except.error e ∧
        (collectH (processNamespaceH metric) x hh).1 = Except.error e) ∨
       (∃ rs refs, collectE (processNamespace metric) (derefX hh x)
          = Except.ok rs ∧
         (collectH (processNamespaceH metric) x hh).1 = Except.ok refs ∧
         (∀ q ∈ refs,
           q < (collectH (processNamespaceH metric) x hh).2.cells.length) ∧
         refs.map ((collectH (processNamespaceH metric) x hh).2.get)
           = rs)) := by
  have hpure : collectE (processNamespace metric) (derefX hh x) =
      collectE (fun ns => processNamespace metric (derefNs hh ns)) x := by
    unfold derefX
    rw [collectE_map]
  rw [hpure]
  rw [List.all_eq_true] at hb
  exact collectH_spec (processNamespaceH metric)
    (fun h' ns => processNamespace metric (derefNs h' ns))
    (fun ns nn => nsBounded nn ns = true)
    (fun ns n n' hle hbn => nsBounded_mono ns n n' hle hbn)
    (fun ns h₁ h₂ t ht hbn => by
      show processNamespace metric (derefNs h₂ ns)
        = processNamespace metric (derefNs h₁ ns)
      rw [derefNs_stable h₁ h₂ t ht ns hbn])
    (fun ns h₁ hbn => processNamespaceH_spec metric ns h₁ hbn)
    x hh hb

lemma extract_metricsH_spec (x : XBRLRefs) (ms : List String) (h : Heap)
    (hb : xbrlBounded x h = true) :
    ∃ t, (extract_metricsH x ms h).2.cells = h.cells ++ t ∧
      ((∃ e, extract_metrics (derefX h x) ms = Except.error e ∧
        (extract_metricsH x ms h).1 = Except.error e) ∨
       (∃ rs refs, extract_metrics (derefX h x) ms = Except.ok rs ∧
         (extract_metricsH x ms h).1 = Except.ok refs ∧
         (∀ q ∈ refs, q < (extract_metricsH x ms h).2.cells.length) ∧
         refs.map ((extract_metricsH x ms h).2.get) = rs)) := by
  unfold xbrlBounded at hb
  have hpure : extract_metrics (derefX h x) ms =
      collectE (fun metric =>
        collectE (processNamespace metric) (derefX h x)) ms := rfl
  rw [hpure]
  exact collectH_spec
    (fun metric hh => collectH (processNamespaceH metric) x hh)
    (fun hh metric => collectE (processNamespace metric) (derefX hh x))
    (fun _ nn => x.all (nsBounded nn) = true)
    (fun _ n n' hle hbn => by
      have hbn' : x.all (nsBounded n) = true := hbn
      show x.all (nsBounded n') = true
      rw [List.all_eq_true] at hbn' ⊢
      exact fun ns hns => nsBounded_mono ns n n' hle (hbn' ns hns))
    (fun metric h₁ h₂ t ht hbn => by
      show collectE (processNamespace metric) (derefX h₂ x)
        = collectE (processNamespace metric) (derefX h₁ x)
      rw [derefX_stable h₁ h₂ t ht x hbn])
    (fun metric h₁ hbn => collectH_ns_level metric x h₁ hbn)
    ms h (fun _ _ => hb)

/-! ## Claim theorems -/

/-- C1: for every XBRL mapping whose `filed` values are strings and every
metrics list, `extract_metrics` returns normally and its output is exactly the
spec comprehension `specRows`: one row per (metric-occurrence, namespace,
fact) triple whose fact has a `filed` field parseable as `%Y-%m-%d`, each row
being the shallow copy of the fact's fields together with `market_day`
(`shift_to_market_open` of the parsed date), `namespace` and `content`. -/
theorem extract_metrics_rows_exact (x : XBRLData) (ms : List String)
    (hx : wellFiled x = true) :
    extract_metrics x ms = Except.ok (specRows x ms) :=
  extract_metrics_eq_specRows x ms hx

theorem extract_metrics_rows_exact_witness :
    extract_metrics sampleXBRL ["us-gaap_NetIncomeLoss_USD"] =
      Except.ok (specRows sampleXBRL ["us-gaap_NetIncomeLoss_USD"]) :=
  extract_metrics_rows_exact sampleXBRL ["us-gaap_NetIncomeLoss_USD"] rfl

/-- C2: a fact that lacks a `filed` field, or whose `filed` string fails to
parse as `%Y-%m-%d`, contributes zero rows and raises no exception, and
processing the remaining facts continues as if the bad fact were absent. -/
theorem extract_metrics_skips_bad_filed (n m : String) (f : Dict)
    (pre post : List Dict)
    (hbad : dictContains f "filed" = false ∨
      ∃ s, dictGet f "filed" = some (Val.str s) ∧ strptime_Ymd s = none) :
    processFact n m f = Except.ok [] ∧
    collectE (processFact n m) (pre ++ f :: post) =
      collectE (processFact n m) (pre ++ post) := by
  have h1 : processFact n m f = Except.ok [] := by
    rcases hbad with h | ⟨s, hs, hp⟩
    · simp [processFact, h]
    · have hc : dictContains f "filed" = true := by
        rw [dictContains_eq_isSome, hs]
        rfl
      simp [processFact, hc, hs, hp]
  refine ⟨h1, ?_⟩
  induction pre with
  | nil =>
      simp only [List.nil_append, collectE, h1]
      cases hcp : collectE (processFact n m) post <;> simp
  | cons a t ih =>
      simp only [List.cons_append, collectE, List.append_eq, ih]

theorem extract_metrics_skips_bad_filed_witness :
    (processFact "us-gaap" "m" factNoFiled = Except.ok [] ∧
      collectE (processFact "us-gaap" "m") ([] ++ factNoFiled :: []) =
        collectE (processFact "us-gaap" "m") ([] ++ [])) ∧
    (processFact "us-gaap" "m" factBadDate = Except.ok [] ∧
      collectE (processFact "us-gaap" "m") ([] ++ factBadDate :: []) =
        collectE (processFact "us-gaap" "m") ([] ++ [])) :=
  ⟨extract_metrics_skips_bad_filed "us-gaap" "m" factNoFiled [] []
      (Or.inl rfl),
   extract_metrics_skips_bad_filed "us-gaap" "m" factBadDate [] []
      (Or.inr ⟨"not-a-date", rfl, rfl⟩)⟩

/-- C3: on a Saturday (weekday 5) or Sunday (weekday 6) the shift adds
`7 - weekday` days — 2 days from Saturday, 1 day from Sunday — and lands on a
Monday at 09:30. -/
theorem shift_to_market_open_weekend (o : Nat) (h : weekday o ≥ 5) :
    shift_to_market_open o =
      { ordinal := o + (7 - weekday o), hour := 9, minute := 30 } ∧
    weekday (o + (7 - weekday o)) = 0 ∧
    (weekday o = 5 → o + (7 - weekday o) = o + 2) ∧
    (weekday o = 6 → o + (7 - weekday o) = o + 1) := by
  refine ⟨?_, ?_, ?_, ?_⟩
  · simp only [shift_to_market_open]
    rw [if_pos h]
  · simp only [weekday] at *
    omega
  · intro h5
    simp only [weekday] at *
    omega
  · intro h6
    simp only [weekday] at *
    omega

theorem shift_to_market_open_weekend_witness :
    shift_to_market_open (toOrdinal 2024 2 3) =
      { ordinal := toOrdinal 2024 2 3 + (7 - weekday (toOrdinal 2024 2 3)),
        hour := 9, minute := 30 } ∧
    shift_to_market_open (toOrdinal 2024 2 4) =
      { ordinal := toOrdinal 2024 2 4 + (7 - weekday (toOrdinal 2024 2 4)),
        hour := 9, minute := 30 } :=
  ⟨(shift_to_market_open_weekend (toOrdinal 2024 2 3) (by decide)).1,
   (shift_to_market_open_weekend (toOrdinal 2024 2 4) (by decide)).1⟩

/-- C4: on Monday through Friday the filing date is combined with 09:30
unchanged. -/
theorem shift_to_market_open_weekday_id (o : Nat) (h : weekday o < 5) :
    shift_to_market_open o = { ordinal := o, hour := 9, minute := 30 } := by
  simp only [shift_to_market_open]
  rw [if_neg (by omega)]

theorem shift_to_market_open_weekday_id_witness :
    shift_to_market_open (toOrdinal 2024 2 2) =
      { ordinal := toOrdinal 2024 2 2, hour := 9, minute := 30 } :=
  shift_to_market_open_weekday_id (toOrdinal 2024 2 2) (by decide)

/-- C5: `next_trading_day` returns `d + 1` when that is a weekday, otherwise
the following Monday; the result is strictly greater than the input and never
falls on Saturday or Sunday. -/
theorem next_trading_day_spec (d : Nat) :
    (weekday (d + 1) < 5 → next_trading_day d = d + 1) ∧
    (weekday (d + 1) ≥ 5 →
      next_trading_day d = d + 1 + (7 - weekday (d + 1)) ∧
      weekday (next_trading_day d) = 0) ∧
    d < next_trading_day d ∧ weekday (next_trading_day d) < 5 := by
  have hc := skipWeekend_closed (d + 1)
  unfold next_trading_day
  rw [hc]
  simp only [weekday]
  split_ifs <;> omega

theorem next_trading_day_spec_witness :
    next_trading_day (toOrdinal 2024 2 2) =
      toOrdinal 2024 2 2 + 1 + (7 - weekday (toOrdinal 2024 2 2 + 1)) :=
  ((next_trading_day_spec (toOrdinal 2024 2 2)).2.1 (by decide)).1

/-- C6: when the requested metric key is absent from a namespace's mapping,
no row at all is emitted for that (metric, namespace) pair (under the module's
default `print_metrics = False`). -/
theorem absent_metric_emits_no_row (metric nsname : String)
    (nsdata : List (String × List Dict))
    (habs : nsdata.find? (fun p => p.1 == metric) = none) :
    processNamespace metric (nsname, nsdata) = Except.ok [] := by
  simp [processNamespace, habs, print_metrics]

theorem absent_metric_emits_no_row_witness :
    processNamespace "us-gaap_InventoryNet_USD" ("us-gaap",
      [("us-gaap_NetIncomeLoss_USD", [factNoFiled])]) = Except.ok [] :=
  absent_metric_emits_no_row "us-gaap_InventoryNet_USD" "us-gaap"
    [("us-gaap_NetIncomeLoss_USD", [factNoFiled])] rfl

/-- C7: output order is structural, not sorted: splitting the metrics list
splits the output in metric-list order (outermost), and for a single metric
the output is the concatenation over namespaces in `xbrl_data` iteration
order of the fact-list-order rows (`rowsForPair` preserves fact order via
`filterMap`). -/
theorem extract_metrics_order (x : XBRLData) (ms₁ ms₂ : List String)
    (m : String) (hx : wellFiled x = true) :
    extract_metrics x (ms₁ ++ ms₂) =
      Except.ok (specRows x ms₁ ++ specRows x ms₂) ∧
    extract_metrics x [m] =
      Except.ok (concatAll (x.map (rowsForPair m))) := by
  constructor
  · rw [extract_metrics_eq_specRows x (ms₁ ++ ms₂) hx]
    unfold specRows
    rw [List.map_append, concatAll_append]
  · rw [extract_metrics_eq_specRows x [m] hx]
    simp [specRows, concatAll]

theorem extract_metrics_order_witness :
    extract_metrics sampleXBRL
        (["absent"] ++ ["us-gaap_NetIncomeLoss_USD"]) =
      Except.ok (specRows sampleXBRL ["absent"] ++
        specRows sampleXBRL ["us-gaap_NetIncomeLoss_USD"]) :=
  (extract_metrics_order sampleXBRL ["absent"]
    ["us-gaap_NetIncomeLoss_USD"] "x" rfl).1

/-- C8: `extract_metrics` does not mutate `xbrl_data`: in the heap-level
embedding, every heap cell that existed before the call is unchanged after it
(in particular the dereferenced XBRL structure is unchanged), and running the
call a second time on the resulting heap succeeds and yields row dictionaries
structurally identical to the first call's. -/
theorem extract_metrics_no_mutation (x : XBRLRefs) (ms : List String)
    (h : Heap) (hb : xbrlBounded x h = true) :
    (∀ i, i < h.cells.length →
      (extract_metricsH x ms h).2.cells.getD i [] = h.cells.getD i []) ∧
    derefX (extract_metricsH x ms h).2 x = derefX h x ∧
    (∀ refs₁, (extract_metricsH x ms h).1 = Except.ok refs₁ →
      ∃ refs₂,
        (extract_metricsH x ms (extract_metricsH x ms h).2).1
          = Except.ok refs₂ ∧
        refs₂.map
          ((extract_metricsH x ms (extract_metricsH x ms h).2).2.get)
          = refs₁.map ((extract_metricsH x ms h).2.get)) := by
  obtain ⟨t, ht, hcorr⟩ := extract_metricsH_spec x ms h hb
  have hbx : x.all (nsBounded h.cells.length) = true := hb
  have hder : derefX (extract_metricsH x ms h).2 x = derefX h x :=
    derefX_stable h (extract_metricsH x ms h).2 t ht x hbx
  refine ⟨?_, hder, ?_⟩
  · intro i hi
    rw [ht]
    exact getD_append_lt _ _ _ _ hi
  · intro refs₁ hok
    rcases hcorr with ⟨e, hpe, hhe⟩ | ⟨rs, refs, hprs, hhrefs, hqb, hmap⟩
    · rw [hok] at hhe
      cases hhe
    · rw [hok] at hhrefs
      have hrefs₁ : refs₁ = refs := Except.ok.inj hhrefs
      have hb₂ : xbrlBounded x (extract_metricsH x ms h).2 = true := by
        show List.all x (nsBounded (extract_metricsH x ms h).2.cells.length)
          = true
        rw [List.all_eq_true] at hbx ⊢
        intro ns hns
        refine nsBounded_mono ns h.cells.length _ ?_ (hbx ns hns)
        rw [ht]
        simp
      obtain ⟨t₂, ht₂, hcorr₂⟩ :=
        extract_metricsH_spec x ms (extract_metricsH x ms h).2 hb₂
      rw [hder] at hcorr₂
      rcases hcorr₂ with ⟨e, hpe₂, hhe₂⟩ |
        ⟨rs₂, refs₂, hprs₂, hhrefs₂, hqb₂, hmap₂⟩
      · rw [hprs] at hpe₂
        cases hpe₂
      · refine ⟨refs₂, hhrefs₂, ?_⟩
        rw [hmap₂]
        have hrs : rs₂ = rs := by
          rw [hprs] at hprs₂
          exact (Except.ok.inj hprs₂).symm
        rw [hrs, ← hmap, hrefs₁]

theorem extract_metrics_no_mutation_witness :
    derefX (extract_metricsH sampleXBRLRefs ["us-gaap_NetIncomeLoss_USD"]
        sampleHeap).2 sampleXBRLRefs = derefX sampleHeap sampleXBRLRefs ∧
    (∃ refs₂,
      (extract_metricsH sampleXBRLRefs ["us-gaap_NetIncomeLoss_USD"]
        (extract_metricsH sampleXBRLRefs ["us-gaap_NetIncomeLoss_USD"]
          sampleHeap).2).1 = Except.ok refs₂ ∧
      refs₂.map ((extract_metricsH sampleXBRLRefs
        ["us-gaap_NetIncomeLoss_USD"] (extract_metricsH sampleXBRLRefs
        ["us-gaap_NetIncomeLoss_USD"] sampleHeap).2).2.get) =
        [1].map ((extract_metricsH sampleXBRLRefs
          ["us-gaap_NetIncomeLoss_USD"] sampleHeap).2.get)) :=
  ⟨(extract_metrics_no_mutation sampleXBRLRefs
      ["us-gaap_NetIncomeLoss_USD"] sampleHeap rfl).2.1,
   (extract_metrics_no_mutation sampleXBRLRefs
      ["us-gaap_NetIncomeLoss_USD"] sampleHeap rfl).2.2 [1] rfl⟩

/-- C9 (amended): `extract_metrics` does not deduplicate `metrics_list` — a
metric occurring `k` times yields `k` rows per qualifying fact — but the
module's `top_25_metrics` contains `us-gaap_ResearchAndDevelopmentExpense_USD`
only once (the literal on line 47 of the source is concatenated with the next
one by a missing comma), so `extract_metrics_from_EDGAR_XBRL` emits that
metric's facts exactly once. -/
theorem metrics_list_multiplicity :
    (∀ (x : XBRLData) (ms : List String) (m : String) (out : List Dict),
      wellFiled x = true → extract_metrics x ms = Except.ok out →
      contentCount out m = ms.count m * qualFacts x m) ∧
    top_25_metrics.count "us-gaap_ResearchAndDevelopmentExpense_USD" = 1 ∧
    (∀ (x : XBRLData) (out : List Dict), wellFiled x = true →
      extract_metrics_from_EDGAR_XBRL x = Except.ok out →
      contentCount out "us-gaap_ResearchAndDevelopmentExpense_USD" =
        qualFacts x "us-gaap_ResearchAndDevelopmentExpense_USD") := by
  have hgen : ∀ (x : XBRLData) (ms : List String) (m : String)
      (out : List Dict), wellFiled x = true →
      extract_metrics x ms = Except.ok out →
      contentCount out m = ms.count m * qualFacts x m := by
    intro x ms m out hx hout
    have h := extract_metrics_eq_specRows x ms hx
    rw [hout] at h
    rw [Except.ok.inj h]
    exact contentCount_specRows x ms m
  have hcount :
      top_25_metrics.count "us-gaap_ResearchAndDevelopmentExpense_USD"
        = 1 := by decide
  refine ⟨hgen, hcount, fun x out hx hout => ?_⟩
  have h := hgen x top_25_metrics
    "us-gaap_ResearchAndDevelopmentExpense_USD" out hx hout
  rw [hcount, Nat.one_mul] at h
  exact h

theorem metrics_list_multiplicity_witness :
    contentCount
      ((extract_metrics_from_EDGAR_XBRL sampleRD).toOption.getD [])
      "us-gaap_ResearchAndDevelopmentExpense_USD" =
      qualFacts sampleRD "us-gaap_ResearchAndDevelopmentExpense_USD" :=
  metrics_list_multiplicity.2.2 sampleRD
    ((extract_metrics_from_EDGAR_XBRL sampleRD).toOption.getD []) rfl rfl

/-- C9 counterexample to the claim as stated: `top_25_metrics` does not
contain `us-gaap_ResearchAndDevelopmentExpense_USD` twice, and on a concrete
input with one fact under that key, `extract_metrics_from_EDGAR_XBRL` emits
one row for it, not two. -/
theorem top25_rd_once_counterexample :
    top_25_metrics.count "us-gaap_ResearchAndDevelopmentExpense_USD" ≠ 2 ∧
    contentCount
      ((extract_metrics_from_EDGAR_XBRL sampleRD).toOption.getD [])
      "us-gaap_ResearchAndDevelopmentExpense_USD" = 1 :=
  ⟨by decide, by decide⟩

/-- C10: the weekend loop of `next_trading_day` runs at most two iterations,
the result is at most the input plus 3 days, and the bound 3 is attained
exactly when the input is a Friday (weekday 4). -/
theorem next_trading_day_bound (d : Nat) :
    next_trading_day d ≤ d + 3 ∧
    (next_trading_day d = d + 3 ↔ weekday d = 4) ∧
    skipWeekendIters (d + 1) ≤ 2 ∧
    (skipWeekendIters (d + 1) = 2 ↔ weekday d = 4) := by
  have hc := skipWeekend_closed (d + 1)
  have hi := skipWeekendIters_closed (d + 1)
  unfold next_trading_day
  by_cases h5 : (d + 1 + 6) % 7 = 5
  · rw [if_pos h5] at hc hi
    rw [hc, hi]
    unfold weekday
    omega
  · rw [if_neg h5] at hc hi
    by_cases h6 : (d + 1 + 6) % 7 = 6
    · rw [if_pos h6] at hc hi
      rw [hc, hi]
      unfold weekday
      omega
    · rw [if_neg h6] at hc hi
      rw [hc, hi]
      unfold weekday
      omega

theorem next_trading_day_bound_witness :
    skipWeekendIters (toOrdinal 2024 2 2 + 1) = 2 :=
  (next_trading_day_bound (toOrdinal 2024 2 2)).2.2.2.mpr (by decide)

end EdgarXBRL
